import Mathlib

/-!
Verification of the S&P 500 animation script (src/sp500_animation.py).

Shallow embedding: prices are rationals, dates are calendar triples, the
pandas DataFrame returned by the provider is a list of OHLCV rows together
with a flag recording whether the Close column is present, the
functools.lru_cache memoization is explicit state passing, and the
matplotlib FuncAnimation run is the list of frame states produced by the
init function followed by the update function at frames 0 .. N-1
(frames=len(dates), repeat=False).
-/

namespace SP500

/-- Calendar date with no time-of-day, as produced by calling .date() on a
pandas timestamp in the label format. -/
structure Date where
  year : Nat
  month : Nat
  day : Nat
deriving DecidableEq, Repr

/-- Chronological comparison key for dates (valid for month < 100, day < 100,
which holds for calendar dates). -/
def Date.key (d : Date) : Nat := d.year * 10000 + d.month * 100 + d.day

/-- Last decimal digit of a natural number, as a character. -/
def digit (n : Nat) : Char := Nat.digitChar (n % 10)

/-- Zero-padded two-digit decimal rendering, Python %02d for n < 100. -/
def pad2 (n : Nat) : String := String.mk [digit (n / 10), digit n]

/-- Zero-padded four-digit decimal rendering, Python %04d for n < 10000. -/
def pad4 (n : Nat) : String :=
  String.mk [digit (n / 1000), digit (n / 100), digit (n / 10), digit n]

/-- Python date.isoformat(): YYYY-MM-DD with zero padding. -/
def Date.isoformat (d : Date) : String :=
  pad4 d.year ++ "-" ++ pad2 d.month ++ "-" ++ pad2 d.day

/-- Python float formatting with two decimal places, as in the f-string
format spec .2f of the update function: round the value to the nearest
multiple of 1/100 and render it with exactly two digits after the decimal
point.  (CPython rounds the underlying binary double to nearest, which for
the price values at stake coincides with rational rounding.) -/
def fmt2 (q : Rat) : String :=
  let c : Int := round (q * 100)
  (if c < 0 then "-" else "") ++ toString (c.natAbs / 100) ++ "." ++ pad2 (c.natAbs % 100)

/-- One normalized output point: only the Date and Close fields survive the
projection performed by load_sp500_history. -/
structure PricePoint where
  date : Date
  close : Rat
deriving DecidableEq, Repr

/-- One raw provider row: the Yahoo Finance history table carries
open/high/low/close/volume columns per date. -/
structure HistRow where
  date : Date
  openPrice : Rat
  high : Rat
  low : Rat
  close : Rat
  volume : Nat
deriving DecidableEq, Repr

/-- The fetched history table.  rows models the DataFrame rows in provider
order; hasClose models the pandas column-membership test
(the expression testing that Close is not in history), so a table may be
non-empty yet lack the closing-price column. -/
structure HistTable where
  rows : List HistRow
  hasClose : Bool
deriving DecidableEq, Repr

/-- The parameters of the one remote request issued by
load_sp500_history: yf.Ticker with the fixed symbol, history with
period max and auto_adjust disabled; the interval field records the
yfinance default of one day used when the argument is omitted. -/
structure FetchRequest where
  symbol : String
  period : String
  interval : String
  autoAdjust : Bool
deriving DecidableEq, Repr

/-- The request hardcoded in load_sp500_history. -/
def sp500Request : FetchRequest :=
  { symbol := "^GSPC", period := "max", interval := "1d", autoAdjust := false }

/-- Core of load_sp500_history as a function of the fetched table: raise
(here: return an error) when the table is empty or lacks the Close column,
otherwise project each row to its Date and Close fields, preserving order
(reset_index followed by selecting the Date and Close columns; the
to_datetime conversion is the identity on our date model). -/
def load_sp500_history (history : HistTable) : Except String (List PricePoint) :=
  if history.rows.isEmpty || !history.hasClose then
    .error "Could not load S&P 500 history from Yahoo Finance."
  else
    .ok (history.rows.map fun r => { date := r.date, close := r.close })

/-- load_sp500_history together with the log of remote requests its body
issues: the body evaluates the provider call exactly once, with the
hardcoded request. -/
def loadWithLog (provider : FetchRequest → HistTable) :
    Except String (List PricePoint) × List FetchRequest :=
  (load_sp500_history (provider sp500Request), [sp500Request])

/-- State of the functools.lru_cache(maxsize=1) wrapper around a nullary
function: at most one cached value, plus a count of how many times the
underlying fetch was invoked.  lru_cache stores a successful return value
forever and does not cache raised exceptions. -/
structure LoaderState where
  cache : Option (List PricePoint)
  fetchCount : Nat
deriving DecidableEq, Repr

/-- The initial loader state of a fresh process: nothing cached, no fetch
performed. -/
def initialLoaderState : LoaderState := { cache := none, fetchCount := 0 }

/-- One call to the memoized load_sp500_history.  fetch gives the table
returned by the n-th invocation of the remote collaborator.  A cache hit
returns the stored series without touching the collaborator; a miss invokes
it, caches a successful result, and leaves the cache empty on error
(lru_cache does not cache exceptions). -/
def loadCall (fetch : Nat → HistTable) (s : LoaderState) :
    Except String (List PricePoint) × LoaderState :=
  match s.cache with
  | some d => (.ok d, s)
  | none =>
    match load_sp500_history (fetch s.fetchCount) with
    | .ok d => (.ok d, { cache := some d, fetchCount := s.fetchCount + 1 })
    | .error e => (.error e, { cache := none, fetchCount := s.fetchCount + 1 })

/-- Loader state after n calls in one process. -/
def runCalls (fetch : Nat → HistTable) : Nat → LoaderState
  | 0 => initialLoaderState
  | n + 1 => (loadCall fetch (runCalls fetch n)).2

/-- Result of call number n (0-indexed) to the memoized loader. -/
def callResult (fetch : Nat → HistTable) (n : Nat) : Except String (List PricePoint) :=
  (loadCall fetch (runCalls fetch n)).1

/-- Result of the axis formatting in format_axes: the x-limits set (none when
the date clamp is skipped) and the y-limits set (none when the price clamp is
skipped).  All other axis effects (title, label, grid, tick locator) carry no
data dependence and are omitted. -/
def format_axes (dates : List Date) (prices : List Rat) :
    Option (Date × Date) × Option (Rat × Rat) :=
  let xlim : Option (Date × Date) :=
    match dates with
    | [] => none
    | d :: ds =>
      some (ds.foldl (fun a b => if b.key < a.key then b else a) d,
            ds.foldl (fun a b => if a.key < b.key then b else a) d)
  let ylim : Option (Rat × Rat) :=
    match prices with
    | [] => none
    | p :: ps =>
      let priceMin := ps.foldl min p
      let priceMax := ps.foldl max p
      -- padding = (price_max - price_min) * 0.05 or 10  (Python: 0 is falsy)
      let padding := if (priceMax - priceMin) * (0.05 : Rat) = 0 then 10
                     else (priceMax - priceMin) * (0.05 : Rat)
      some (priceMin - padding, priceMax + padding)
  (xlim, ylim)

/-- One observable state of the animation: the data of the line artist, the
position of the marker artist (none while empty), and the label text. -/
structure FrameState where
  lineDates : List Date
  linePrices : List Rat
  markerPos : Option (Date × Rat)
  labelText : String
deriving DecidableEq, Repr

/-- The init function of the animation: empty line, empty marker, empty
label. -/
def initFrame : FrameState :=
  { lineDates := [], linePrices := [], markerPos := none, labelText := "" }

/-- The update function of the animation at frame index frame: the line
shows the prefix of length frame+1 of dates and closes (Python slicing
clamps past the end); when that prefix is non-empty the marker moves to its
last point and the label shows the last date in ISO format and the last
price with two decimals.  In the script, dates and closes are two columns
of one DataFrame and so always have equal length; the branch therefore
fires exactly when the dates prefix is non-empty, matching the truthiness
guard on current_dates. -/
def update (dates : List Date) (closes : List Rat) (frame : Nat)
    (st : FrameState) : FrameState :=
  let currentDates := dates.take (frame + 1)
  let currentPrices := closes.take (frame + 1)
  let st1 : FrameState := { st with lineDates := currentDates, linePrices := currentPrices }
  match currentDates.getLast?, currentPrices.getLast? with
  | some d, some p =>
    { st1 with
      markerPos := some (d, p)
      labelText := d.isoformat ++ ": " ++ fmt2 p }
  | _, _ => st1

/-- The sequence of frame states produced by running update once per frame
index in the given list, each starting from the state left by the previous
frame (the artists persist between frames). -/
def statesFrom (dates : List Date) (closes : List Rat) :
    FrameState → List Nat → List FrameState
  | _, [] => []
  | st, i :: is =>
    let st1 := update dates closes i st
    st1 :: statesFrom dates closes st1 is

/-- The observable states of animate_prices on a series: the dates and
closes columns are extracted, init runs once, and FuncAnimation with
frames=len(dates), repeat=False renders frames 0 .. len-1 in order and then
stops. -/
def animate_prices (data : List PricePoint) : List FrameState :=
  let dates := data.map (fun p => p.date)
  let closes := data.map (fun p => p.close)
  initFrame :: statesFrom dates closes initFrame (List.range dates.length)

/-- A concrete two-row fetched table used to instantiate the theorems. -/
def exampleTable : HistTable :=
  { rows :=
      [ { date := { year := 2020, month := 1, day := 1 },
          openPrice := 99, high := 101, low := 98, close := 100, volume := 1000 },
        { date := { year := 2020, month := 1, day := 2 },
          openPrice := 100, high := 106, low := 99, close := 211/2, volume := 1100 } ],
    hasClose := true }

/-- The series the example table projects to. -/
def exampleSeries : List PricePoint :=
  [ { date := { year := 2020, month := 1, day := 1 }, close := 100 },
    { date := { year := 2020, month := 1, day := 2 }, close := 211/2 } ]

/-! ## Helper lemmas -/

theorem load_ok_iff (tbl : HistTable) (pts : List PricePoint) :
    load_sp500_history tbl = .ok pts ↔
      tbl.rows ≠ [] ∧ tbl.hasClose = true ∧
      pts = tbl.rows.map (fun r => { date := r.date, close := r.close }) := by
  unfold load_sp500_history
  by_cases h1 : tbl.rows = []
  · simp [h1]
  · by_cases h2 : tbl.hasClose
    · simp only [List.isEmpty_iff, h1, h2]
      simp [h1, h2]
      exact eq_comm
    · simp [h1, h2]

theorem load_error_iff (tbl : HistTable) (e : String) :
    load_sp500_history tbl = .error e ↔
      (tbl.rows = [] ∨ tbl.hasClose = false) ∧
      e = "Could not load S&P 500 history from Yahoo Finance." := by
  unfold load_sp500_history
  by_cases h1 : tbl.rows = []
  · simp [h1]
    exact eq_comm
  · by_cases h2 : tbl.hasClose
    · simp [h1, h2]
    · simp [h1, h2]
      exact eq_comm

/-! ## C1: projection of the fetched rows -/

/-- C1: for every non-empty fetched history table (with its closing-price
column present), load_sp500_history returns a series of the same length
whose (date, close) pairs are the 1:1 order-preserving projection of the
rows, without re-sorting. -/
theorem load_history_projection (tbl : HistTable)
    (h1 : tbl.rows ≠ []) (h2 : tbl.hasClose = true) :
    ∃ pts, load_sp500_history tbl = .ok pts ∧
      pts.length = tbl.rows.length ∧
      (∀ j : Nat, pts[j]? =
        (tbl.rows[j]?).map (fun r => { date := r.date, close := r.close })) ∧
      pts = tbl.rows.map (fun r => { date := r.date, close := r.close }) := by
  refine ⟨tbl.rows.map (fun r => { date := r.date, close := r.close }),
    (load_ok_iff tbl _).mpr ⟨h1, h2, rfl⟩, by simp, fun j => by simp, rfl⟩

/-- Witness for C1 at the concrete example table. -/
theorem load_history_projection_witness :
    ∃ pts, load_sp500_history exampleTable = .ok pts ∧
      pts.length = exampleTable.rows.length ∧
      (∀ j : Nat, pts[j]? =
        (exampleTable.rows[j]?).map (fun r => { date := r.date, close := r.close })) ∧
      pts = exampleTable.rows.map (fun r => { date := r.date, close := r.close }) :=
  load_history_projection exampleTable (by simp [exampleTable]) (by simp [exampleTable])

/-! ## C2: the sole validated failure path -/

/-- C2: load_sp500_history fails with the DataUnavailable error exactly when
the fetched table is empty or lacks the closing-price column, and a
successful result is never the empty series. -/
theorem load_history_error_iff_empty (tbl : HistTable) :
    ((∃ e, load_sp500_history tbl = .error e) ↔
      (tbl.rows = [] ∨ tbl.hasClose = false)) ∧
    (∀ pts, load_sp500_history tbl = .ok pts → pts ≠ []) := by
  constructor
  · constructor
    · rintro ⟨e, he⟩
      exact ((load_error_iff tbl e).mp he).1
    · intro h
      exact ⟨_, (load_error_iff tbl _).mpr ⟨h, rfl⟩⟩
  · intro pts hpts
    obtain ⟨hne, -, hmap⟩ := (load_ok_iff tbl pts).mp hpts
    simpa [hmap] using hne

/-- Witness for C2: the empty table errors, and the example table yields a
non-empty series. -/
theorem load_history_error_iff_empty_witness :
    (∃ e, load_sp500_history { rows := [], hasClose := true } = .error e) ∧
    exampleSeries ≠ [] :=
  ⟨(load_history_error_iff_empty { rows := [], hasClose := true }).1.mpr (Or.inl rfl),
   (load_history_error_iff_empty exampleTable).2 exampleSeries (by rfl)⟩

/-! ## C9: the single hardcoded remote request -/

/-- C9: the loader body issues exactly one remote request, for the fixed
symbol with maximum period, daily interval, and auto-adjustment disabled,
and a successful result keeps only the date and closing-price fields of the
rows, discarding every other provider field. -/
theorem load_request_spec :
    (∀ provider : FetchRequest → HistTable,
      (loadWithLog provider).2 = [sp500Request] ∧
      (loadWithLog provider).2.length = 1 ∧
      (loadWithLog provider).1 = load_sp500_history (provider sp500Request)) ∧
    sp500Request.symbol = "^GSPC" ∧ sp500Request.period = "max" ∧
    sp500Request.interval = "1d" ∧ sp500Request.autoAdjust = false ∧
    (∀ tbl pts, load_sp500_history tbl = .ok pts →
      pts = tbl.rows.map (fun r => { date := r.date, close := r.close })) :=
  ⟨fun _ => ⟨rfl, rfl, rfl⟩, rfl, rfl, rfl, rfl,
   fun tbl pts hpts => ((load_ok_iff tbl pts).mp hpts).2.2⟩

/-- Witness for C9: the projection equation at the concrete example
table. -/
theorem load_request_spec_witness :
    exampleSeries =
      exampleTable.rows.map (fun r => { date := r.date, close := r.close }) :=
  load_request_spec.2.2.2.2.2 exampleTable exampleSeries (by rfl)

/-! ## C3: process-lifetime memoization -/

/-- C3: when the fetch succeeds, the first call to the memoized loader
performs the one network fetch and every later call in the same process
returns the same previously-computed series without re-fetching: after any
number of calls the collaborator has been invoked exactly once. -/
theorem load_history_memoized (fetch : Nat → HistTable)
    (hs : ∃ pts, load_sp500_history (fetch 0) = .ok pts) (n : Nat) :
    callResult fetch n = callResult fetch 0 ∧
    (runCalls fetch (n + 1)).fetchCount = 1 := by
  obtain ⟨pts, hpts⟩ := hs
  have key : ∀ m, runCalls fetch (m + 1) = { cache := some pts, fetchCount := 1 } := by
    intro m
    induction m with
    | zero => simp [runCalls, loadCall, initialLoaderState, hpts]
    | succ k ih =>
      have hstep : runCalls fetch (k + 1 + 1) = (loadCall fetch (runCalls fetch (k + 1))).2 := rfl
      rw [hstep, ih]
      simp [loadCall]
  have hres0 : callResult fetch 0 = .ok pts := by
    simp [callResult, runCalls, loadCall, initialLoaderState, hpts]
  constructor
  · cases n with
    | zero => rfl
    | succ k =>
      have hstep : callResult fetch (k + 1) = (loadCall fetch (runCalls fetch (k + 1))).1 := rfl
      rw [hstep, key k, hres0]
      simp [loadCall]
  · rw [key n]

/-- Witness for C3 with the example table as the remote response: the sixth
call result equals the first, after one collaborator invocation. -/
theorem load_history_memoized_witness :
    callResult (fun _ => exampleTable) 5 = callResult (fun _ => exampleTable) 0 ∧
    (runCalls (fun _ => exampleTable) 6).fetchCount = 1 :=
  load_history_memoized (fun _ => exampleTable) ⟨exampleSeries, by rfl⟩ 5

/-! ## Frame-update helper lemmas -/

theorem getLast_take_succ {α : Type} (l : List α) (i : Nat) (h : i < l.length) :
    (l.take (i + 1)).getLast? = l[i]? := by
  rw [List.getLast?_eq_getElem?, List.length_take]
  have hm : min (i + 1) l.length = i + 1 := by omega
  rw [hm]
  simp only [Nat.add_sub_cancel]
  exact List.getElem?_take_of_lt (Nat.lt_succ_self i)

theorem update_eq_of_getLast (dates : List Date) (closes : List Rat) (i : Nat)
    (st : FrameState) (d : Date) (p : Rat)
    (hd : (dates.take (i + 1)).getLast? = some d)
    (hp : (closes.take (i + 1)).getLast? = some p) :
    update dates closes i st =
      { lineDates := dates.take (i + 1), linePrices := closes.take (i + 1),
        markerPos := some (d, p),
        labelText := d.isoformat ++ ": " ++ fmt2 p } := by
  simp only [update]
  rw [hd, hp]

theorem update_nil (closes : List Rat) (i : Nat) (st : FrameState) :
    update [] closes i st =
      { st with lineDates := [], linePrices := closes.take (i + 1) } := by
  simp only [update, List.take_nil, List.getLast?_nil]

theorem update_const (dates : List Date) (closes : List Rat) (i : Nat)
    (st st' : FrameState) (hd : dates ≠ []) (hc : closes ≠ []) :
    update dates closes i st = update dates closes i st' := by
  have h1 : dates.take (i + 1) ≠ [] := by
    simp [List.take_eq_nil_iff, hd]
  have h2 : closes.take (i + 1) ≠ [] := by
    simp [List.take_eq_nil_iff, hc]
  rw [update_eq_of_getLast dates closes i st _ _
        (List.getLast?_eq_getLast _ h1) (List.getLast?_eq_getLast _ h2),
      update_eq_of_getLast dates closes i st' _ _
        (List.getLast?_eq_getLast _ h1) (List.getLast?_eq_getLast _ h2)]

theorem statesFrom_length (dates : List Date) (closes : List Rat)
    (st : FrameState) (is : List Nat) :
    (statesFrom dates closes st is).length = is.length := by
  induction is generalizing st with
  | nil => rfl
  | cons i tl ih => simp only [statesFrom, List.length_cons, ih]

theorem statesFrom_eq_map (dates : List Date) (closes : List Rat)
    (hd : dates ≠ []) (hc : closes ≠ [])
    (st : FrameState) (is : List Nat) :
    statesFrom dates closes st is = is.map (fun i => update dates closes i initFrame) := by
  induction is generalizing st with
  | nil => rfl
  | cons i tl ih =>
    simp only [statesFrom, List.map_cons]
    rw [update_const dates closes i st initFrame hd hc, ih]

/-! ## C4: each frame reveals exactly the prefix up to its index -/

/-- C4: at every frame index i below the series length, the update step sets
the line data to exactly the points with index at most i (and none beyond)
and moves the trailing marker to point i. -/
theorem update_reveals_prefix (data : List PricePoint) (st : FrameState)
    (i : Nat) (hi : i < data.length) :
    ∃ st1, update (data.map fun p => p.date) (data.map fun p => p.close) i st = st1 ∧
      st1.lineDates.length = i + 1 ∧
      st1.linePrices.length = i + 1 ∧
      (∀ j, j ≤ i → st1.lineDates[j]? = (data.map fun p => p.date)[j]? ∧
        st1.linePrices[j]? = (data.map fun p => p.close)[j]?) ∧
      (∀ j, i < j → st1.lineDates[j]? = none ∧ st1.linePrices[j]? = none) ∧
      (∃ pt, data[i]? = some pt ∧ st1.markerPos = some (pt.date, pt.close)) := by
  have hidate : i < (data.map fun p => p.date).length := by simpa using hi
  have hiclose : i < (data.map fun p => p.close).length := by simpa using hi
  have hd : ((data.map fun p => p.date).take (i + 1)).getLast? =
      some ((data.get ⟨i, hi⟩).date) := by
    rw [getLast_take_succ _ _ hidate, List.getElem?_map,
      List.getElem?_eq_getElem hi]
    rfl
  have hp : ((data.map fun p => p.close).take (i + 1)).getLast? =
      some ((data.get ⟨i, hi⟩).close) := by
    rw [getLast_take_succ _ _ hiclose, List.getElem?_map,
      List.getElem?_eq_getElem hi]
    rfl
  refine ⟨_, update_eq_of_getLast _ _ i st _ _ hd hp, ?_, ?_, ?_, ?_, ?_⟩
  · simp
    omega
  · simp
    omega
  · intro j hj
    constructor <;> exact List.getElem?_take_of_lt (by omega)
  · intro j hj
    constructor <;>
      exact List.getElem?_eq_none (by simp; omega)
  · exact ⟨data.get ⟨i, hi⟩, List.getElem?_eq_getElem hi, rfl⟩

/-- Witness for C4 at the example series, frame 1. -/
theorem update_reveals_prefix_witness :
    ∃ st1, update (exampleSeries.map fun p => p.date)
        (exampleSeries.map fun p => p.close) 1 initFrame = st1 ∧
      st1.lineDates.length = 1 + 1 ∧
      st1.linePrices.length = 1 + 1 ∧
      (∀ j, j ≤ 1 → st1.lineDates[j]? = (exampleSeries.map fun p => p.date)[j]? ∧
        st1.linePrices[j]? = (exampleSeries.map fun p => p.close)[j]?) ∧
      (∀ j, 1 < j → st1.lineDates[j]? = none ∧ st1.linePrices[j]? = none) ∧
      (∃ pt, exampleSeries[1]? = some pt ∧ st1.markerPos = some (pt.date, pt.close)) :=
  update_reveals_prefix exampleSeries initFrame 1 (by simp [exampleSeries])

/-! ## C5: the label text format -/

/-- C5: at every frame index i below the series length, the update step sets
the label text to the ISO date of point i, then the separator, then the
closing price of point i rendered with exactly two digits after the decimal
point. -/
theorem update_label_text (data : List PricePoint) (st : FrameState)
    (i : Nat) (hi : i < data.length) :
    ∃ pt, data[i]? = some pt ∧
      (update (data.map fun p => p.date) (data.map fun p => p.close) i st).labelText =
        pt.date.isoformat ++ ": " ++ fmt2 pt.close ∧
      ∃ w f, fmt2 pt.close = w ++ "." ++ f ∧ f.length = 2 := by
  have hidate : i < (data.map fun p => p.date).length := by simpa using hi
  have hiclose : i < (data.map fun p => p.close).length := by simpa using hi
  have hd : ((data.map fun p => p.date).take (i + 1)).getLast? =
      some ((data.get ⟨i, hi⟩).date) := by
    rw [getLast_take_succ _ _ hidate, List.getElem?_map,
      List.getElem?_eq_getElem hi]
    rfl
  have hp : ((data.map fun p => p.close).take (i + 1)).getLast? =
      some ((data.get ⟨i, hi⟩).close) := by
    rw [getLast_take_succ _ _ hiclose, List.getElem?_map,
      List.getElem?_eq_getElem hi]
    rfl
  refine ⟨data.get ⟨i, hi⟩, List.getElem?_eq_getElem hi, ?_, ?_⟩
  · rw [update_eq_of_getLast _ _ i st _ _ hd hp]
  · refine ⟨(if (round ((data.get ⟨i, hi⟩).close * 100) : Int) < 0 then "-" else "") ++
      toString ((round ((data.get ⟨i, hi⟩).close * 100) : Int).natAbs / 100),
      pad2 ((round ((data.get ⟨i, hi⟩).close * 100) : Int).natAbs % 100), ?_, rfl⟩
    simp only [fmt2, String.append_assoc]

/-- Witness for C5 at the example series, frame 0. -/
theorem update_label_text_witness :
    ∃ pt, exampleSeries[0]? = some pt ∧
      (update (exampleSeries.map fun p => p.date)
        (exampleSeries.map fun p => p.close) 0 initFrame).labelText =
        pt.date.isoformat ++ ": " ++ fmt2 pt.close ∧
      ∃ w f, fmt2 pt.close = w ++ "." ++ f ∧ f.length = 2 :=
  update_label_text exampleSeries initFrame 0 (by simp [exampleSeries])

/-! ## C10: the update step is total and clamps past the end -/

/-- C10: for frame indices at or past the series length, the slice clamps so
the update shows the whole series with the marker and label at the last
point; the marker and label are left unchanged exactly when the series is
empty. -/
theorem update_total_clamp (data : List PricePoint) (st : FrameState)
    (i : Nat) (hi : data.length ≤ i) :
    ∃ st1, update (data.map fun p => p.date) (data.map fun p => p.close) i st = st1 ∧
      st1.lineDates = data.map (fun p => p.date) ∧
      st1.linePrices = data.map (fun p => p.close) ∧
      (data ≠ [] → ∃ pt, data.getLast? = some pt ∧
        st1.markerPos = some (pt.date, pt.close) ∧
        st1.labelText = pt.date.isoformat ++ ": " ++ fmt2 pt.close) ∧
      (data = [] → st1.markerPos = st.markerPos ∧ st1.labelText = st.labelText) := by
  have htd : (data.map fun p => p.date).take (i + 1) = data.map fun p => p.date :=
    List.take_of_length_le (by simp; omega)
  have htc : (data.map fun p => p.close).take (i + 1) = data.map fun p => p.close :=
    List.take_of_length_le (by simp; omega)
  rcases eq_or_ne data [] with hnil | hne
  · subst hnil
    exact ⟨_, update_nil [] i st, rfl, rfl, fun h => absurd rfl h,
      fun _ => ⟨rfl, rfl⟩⟩
  · have hlast : data.getLast? = some (data.getLast hne) :=
      List.getLast?_eq_getLast data hne
    have hd : ((data.map fun p => p.date).take (i + 1)).getLast? =
        some ((data.getLast hne).date) := by
      rw [htd, List.getLast?_map, hlast]
      rfl
    have hp : ((data.map fun p => p.close).take (i + 1)).getLast? =
        some ((data.getLast hne).close) := by
      rw [htc, List.getLast?_map, hlast]
      rfl
    refine ⟨_, update_eq_of_getLast _ _ i st _ _ hd hp, htd, htc,
      fun _ => ⟨data.getLast hne, hlast, rfl, rfl⟩,
      fun h => absurd h hne⟩

/-- Witness for C10 at the example series, frame index 5 (past the end). -/
theorem update_total_clamp_witness :
    ∃ st1, update (exampleSeries.map fun p => p.date)
        (exampleSeries.map fun p => p.close) 5 initFrame = st1 ∧
      st1.lineDates = exampleSeries.map (fun p => p.date) ∧
      st1.linePrices = exampleSeries.map (fun p => p.close) ∧
      (exampleSeries ≠ [] → ∃ pt, exampleSeries.getLast? = some pt ∧
        st1.markerPos = some (pt.date, pt.close) ∧
        st1.labelText = pt.date.isoformat ++ ": " ++ fmt2 pt.close) ∧
      (exampleSeries = [] → st1.markerPos = initFrame.markerPos ∧
        st1.labelText = initFrame.labelText) :=
  update_total_clamp exampleSeries initFrame 5 (by simp [exampleSeries])

/-! ## C6: exactly N+1 observable states, in order, then stop -/

/-- C6: the animation over an N-point series produces exactly N+1 observable
states: one initial state with empty line, empty marker and empty label,
then the reveal frames 0 through N-1 in strictly increasing index order
with none skipped or repeated, and nothing after frame N-1. -/
theorem animation_states_spec (data : List PricePoint) :
    (animate_prices data).length = data.length + 1 ∧
    (animate_prices data)[0]? =
      some { lineDates := [], linePrices := [], markerPos := none, labelText := "" } ∧
    ∀ i, i < data.length →
      (animate_prices data)[i + 1]? =
        some (update (data.map fun p => p.date) (data.map fun p => p.close) i initFrame) := by
  refine ⟨?_, ?_, ?_⟩
  · simp only [animate_prices, List.length_cons, statesFrom_length, List.length_range,
      List.length_map]
  · simp only [animate_prices, List.getElem?_cons_zero, initFrame]
  · intro i hi
    rcases eq_or_ne data [] with hnil | hne
    · subst hnil
      exact absurd hi (by simp)
    · have hd : data.map (fun p => p.date) ≠ [] := by
        simpa using hne
      have hc : data.map (fun p => p.close) ≠ [] := by
        simpa using hne
      simp only [animate_prices, statesFrom_eq_map _ _ hd hc]
      rw [List.getElem?_cons_succ, List.getElem?_map,
        List.getElem?_range (by simpa using hi)]
      rfl

/-- Witness for C6: at the example series, three states, and state 2 is
frame 1. -/
theorem animation_states_spec_witness :
    (animate_prices exampleSeries).length = exampleSeries.length + 1 ∧
    (animate_prices exampleSeries)[1 + 1]? =
      some (update (exampleSeries.map fun p => p.date)
        (exampleSeries.map fun p => p.close) 1 initFrame) :=
  ⟨(animation_states_spec exampleSeries).1,
   (animation_states_spec exampleSeries).2.2 1 (by simp [exampleSeries])⟩

/-! ## Fold min/max helper lemmas -/

theorem foldl_min_le_init (ps : List Rat) (a : Rat) : ps.foldl min a ≤ a := by
  induction ps generalizing a with
  | nil => exact le_refl a
  | cons x xs ih => exact le_trans (ih (min a x)) (min_le_left a x)

theorem foldl_min_le_mem (ps : List Rat) (a : Rat) :
    ∀ x ∈ ps, ps.foldl min a ≤ x := by
  induction ps generalizing a with
  | nil => intro x hx; cases hx
  | cons y ys ih =>
    intro x hx
    rcases List.mem_cons.mp hx with h | h
    · subst h
      exact le_trans (foldl_min_le_init ys (min a x)) (min_le_right a x)
    · exact ih (min a y) x h

theorem foldl_min_eq_or_mem (ps : List Rat) (a : Rat) :
    ps.foldl min a = a ∨ ps.foldl min a ∈ ps := by
  induction ps generalizing a with
  | nil => exact Or.inl rfl
  | cons x xs ih =>
    rcases ih (min a x) with h | h
    · rcases min_choice a x with hm | hm
      · exact Or.inl (by rw [List.foldl_cons, h, hm])
      · refine Or.inr ?_
        rw [List.foldl_cons, h, hm]
        exact List.mem_cons_self x xs
    · exact Or.inr (List.mem_cons_of_mem x h)

theorem init_le_foldl_max (ps : List Rat) (a : Rat) : a ≤ ps.foldl max a := by
  induction ps generalizing a with
  | nil => exact le_refl a
  | cons x xs ih => exact le_trans (le_max_left a x) (ih (max a x))

theorem mem_le_foldl_max (ps : List Rat) (a : Rat) :
    ∀ x ∈ ps, x ≤ ps.foldl max a := by
  induction ps generalizing a with
  | nil => intro x hx; cases hx
  | cons y ys ih =>
    intro x hx
    rcases List.mem_cons.mp hx with h | h
    · subst h
      exact le_trans (le_max_right a x) (init_le_foldl_max ys (max a x))
    · exact ih (max a y) x h

theorem foldl_max_eq_or_mem (ps : List Rat) (a : Rat) :
    ps.foldl max a = a ∨ ps.foldl max a ∈ ps := by
  induction ps generalizing a with
  | nil => exact Or.inl rfl
  | cons x xs ih =>
    rcases ih (max a x) with h | h
    · rcases max_choice a x with hm | hm
      · exact Or.inl (by rw [List.foldl_cons, h, hm])
      · refine Or.inr ?_
        rw [List.foldl_cons, h, hm]
        exact List.mem_cons_self x xs
    · exact Or.inr (List.mem_cons_of_mem x h)

/-! ## C7: the y-range padding rule -/

/-- C7: for every non-empty list of closes, the y-limits are the minimum
minus the padding and the maximum plus the padding, where the padding is 5
percent of the price range, replaced by the fixed non-zero fallback 10 when
that product is zero; in particular closes 90 and 110 give limits 89 and
111, and three equal closes 100 give the fallback-padded limits 90 and
110. -/
theorem format_axes_ylim_padding (prices : List Rat) (h : prices ≠ []) :
    ∃ m M pad,
      m ∈ prices ∧ M ∈ prices ∧
      (∀ x ∈ prices, m ≤ x ∧ x ≤ M) ∧
      0 < pad ∧
      ((M - m) * (0.05 : Rat) ≠ 0 → pad = (M - m) * (0.05 : Rat)) ∧
      ((M - m) * (0.05 : Rat) = 0 → pad = 10) ∧
      (format_axes [] prices).2 = some (m - pad, M + pad) ∧
      (format_axes [] [90, 110]).2 = some (89, 111) ∧
      (format_axes [] [100, 100, 100]).2 = some (90, 110) := by
  match prices, h with
  | p :: ps, _ =>
    set m := ps.foldl min p with hm
    set M := ps.foldl max p with hM
    have hmem_m : m ∈ p :: ps := by
      rcases foldl_min_eq_or_mem ps p with h1 | h1
      · rw [hm, h1]; exact List.mem_cons_self p ps
      · exact List.mem_cons_of_mem p h1
    have hmem_M : M ∈ p :: ps := by
      rcases foldl_max_eq_or_mem ps p with h1 | h1
      · rw [hM, h1]; exact List.mem_cons_self p ps
      · exact List.mem_cons_of_mem p h1
    have hbound : ∀ x ∈ p :: ps, m ≤ x ∧ x ≤ M := by
      intro x hx
      rcases List.mem_cons.mp hx with h1 | h1
      · subst h1
        exact ⟨foldl_min_le_init ps x, init_le_foldl_max ps x⟩
      · exact ⟨foldl_min_le_mem ps p x h1, mem_le_foldl_max ps p x h1⟩
    have hmM : m ≤ M := le_trans (hbound p (List.mem_cons_self p ps)).1
      (hbound p (List.mem_cons_self p ps)).2
    refine ⟨m, M, if (M - m) * (0.05 : Rat) = 0 then 10 else (M - m) * (0.05 : Rat),
      hmem_m, hmem_M, hbound, ?_, ?_, ?_, ?_, ?_, ?_⟩
    · by_cases h0 : (M - m) * (0.05 : Rat) = 0
      · rw [if_pos h0]; norm_num
      · rw [if_neg h0]
        have hge : 0 ≤ (M - m) * (0.05 : Rat) := by
          have : (0 : Rat) ≤ M - m := by linarith
          positivity
        exact lt_of_le_of_ne hge (Ne.symm h0)
    · intro h0; rw [if_neg h0]
    · intro h0; rw [if_pos h0]
    · simp only [format_axes, hm, hM]
    · simp [format_axes]
      norm_num
    · simp [format_axes]
      norm_num

/-- Witness for C7 at the concrete closes 90 and 110. -/
theorem format_axes_ylim_padding_witness :
    ∃ m M pad,
      m ∈ [(90 : Rat), 110] ∧ M ∈ [(90 : Rat), 110] ∧
      (∀ x ∈ [(90 : Rat), 110], m ≤ x ∧ x ≤ M) ∧
      0 < pad ∧
      ((M - m) * (0.05 : Rat) ≠ 0 → pad = (M - m) * (0.05 : Rat)) ∧
      ((M - m) * (0.05 : Rat) = 0 → pad = 10) ∧
      (format_axes [] [(90 : Rat), 110]).2 = some (m - pad, M + pad) ∧
      (format_axes [] [90, 110]).2 = some (89, 111) ∧
      (format_axes [] [100, 100, 100]).2 = some (90, 110) :=
  format_axes_ylim_padding [(90 : Rat), 110] (by simp)

/-! ## C8: axis formatting on the empty series -/

/-- C8: on an empty series the min/max computations over dates and prices
are skipped by the truthiness guards, both the x-range and the y-range
clamps are omitted, and axis formatting completes normally. -/
theorem format_axes_empty_safe : format_axes [] [] = (none, none) := rfl

end SP500
